import Mathlib

/-
Verification of the entity-driven media discovery pipeline implemented in
src/flexget/plugins/input/dynamic_imdb.py (class DynamicIMDB).

The embedding follows the Python source line by line:
  * `entity_type_and_object` (lines 120-137): pattern classification of the
    identifier and the backend lookup for the matching entity kind.  The
    formats dictionary is iterated in an unspecified order, so the embedding
    takes the iteration order as an explicit parameter.
  * `items_by_entity` (lines 139-173): per-kind work enumeration.  The
    `job_types.append('actress')` on line 159 mutates the very list stored in
    the configuration; `job_types_after` records that effect.
  * `prepare_config` (lines 175-194): defaulting and string-to-list wrapping.
  * `on_task_input` (lines 196-244): resolution (inside try/except),
    enumeration (outside any try/except), assembly into entries with
    whole-entry dedup, and the max_entries cap that returns nothing rather
    than truncating.

IMDbPy is an external collaborator; it is modelled by the `Backend` record.
Backend calls that can raise are modelled in `Except Err`; an `.error` value
that reaches the result of `on_task_input` models an exception escaping the
plugin (the host boundary).  Python `movie in movies` for IMDbPy work records
compares backend work identity, modelled by the `id` field.  Missing-field
access `movie['kind']` / `item['title']` is modelled by `Option` fields whose
absence produces `Err.keyError`.
-/

deriving instance DecidableEq for Except

namespace DynamicIMDB

/-- Entity kinds recognized by ENTITIES_FORMATS (lines 20-24). -/
inductive EntityKind where
  | Person
  | Company
  | Character
deriving DecidableEq, Repr, Fintype

/-- A backend work record.  `id` is the backend's opaque numeric work
identifier (`movieID`), the identity used by Python `in` tests on work lists.
`kind` and `title` are optional because enumeration-level records are partial;
bracket access on a missing field raises a lookup error. -/
structure Work where
  id : Nat
  kind : Option String
  title : Option String
deriving DecidableEq, Repr

/-- An IMDbPy entity record: a finite map from attribute labels (such as
"actor movie" or "production companies") to lists of work records. -/
abbrev Entity := List (String × List Work)

/-- Python dict-style `entity_object.get(key)`: `none` when the key is absent. -/
def Entity.get (e : Entity) (k : String) : Option (List Work) :=
  (e.find? (fun p => p.1 == k)).map (fun p => p.2)

/-- Python `entity_object.get(key, [])`. -/
def Entity.getD (e : Entity) (k : String) : List Work :=
  (Entity.get e k).getD []

/-- Exceptions that the Python code can raise. -/
inductive Err where
  | backend (msg : String)
  | keyError (key : String)
deriving DecidableEq, Repr

/-- The IMDbPy metadata backend (external collaborator `self.ia`).
`imdbpyAvailable` models whether `from imdb import IMDb` succeeds.
`update` models `self.ia.update(movie)` (hydration; returns the hydrated
record, may raise).  `get_imdbID` models `self.ia.get_imdbID(item)`. -/
structure Backend where
  imdbpyAvailable : Bool
  get_person : List Char → Except Err Entity
  get_company : List Char → Except Err Entity
  get_character : List Char → Except Err Entity
  update : Work → Except Err Work
  get_imdbID : Work → String

/-- A flexget entry as built on lines 224-226: title, imdb_id, url.
Python list membership `entry not in entries` compares entries as dicts,
i.e. all three fields. -/
structure Entry where
  title : String
  imdb_id : String
  url : String
deriving DecidableEq, Repr

/-- Check that the character list begins with `n` decimal digits and return
them (the regex fragment \d{7} anchored at the current position). -/
def takeDigits : Nat → List Char → Option (List Char)
  | 0, _ => some []
  | _ + 1, [] => none
  | n + 1, c :: rest =>
      if c.isDigit then (takeDigits n rest).map (fun ds => c :: ds) else none

/-- Python re.search for a pattern of the form `c1 c2 \d{7}` (the shape of
every entry of ENTITIES_FORMATS): scan left to right for the first position
where the two marker letters are followed by seven digits, returning the
captured digit group. -/
def searchFmt (c1 c2 : Char) : List Char → Option (List Char)
  | [] => none
  | a :: rest =>
      match rest with
      | [] => none
      | b :: rest2 =>
          if a = c1 ∧ b = c2 then
            match takeDigits 7 rest2 with
            | some ds => some ds
            | none => searchFmt c1 c2 rest
          else
            searchFmt c1 c2 rest

/-- The two marker letters of each kind's format: nm / co / ch (lines 20-24). -/
def EntityKind.marks : EntityKind → Char × Char
  | .Person => ('n', 'm')
  | .Company => ('c', 'o')
  | .Character => ('c', 'h')

/-- Match one kind's recognition pattern against the identifier string,
returning the captured seven-digit group (`m.group(1)`). -/
def searchKind (k : EntityKind) (s : String) : Option (List Char) :=
  searchFmt k.marks.1 k.marks.2 s.data

/-- The kind-specific backend lookup chosen on lines 129-137. -/
def kindLookup (B : Backend) : EntityKind → List Char → Except Err Entity
  | .Person => B.get_person
  | .Company => B.get_company
  | .Character => B.get_character

/-- Lines 120-137, `entity_type_and_object`: iterate the formats in the
dictionary's (unspecified) iteration order `order`; the first kind whose
pattern matches wins and its backend lookup is issued.  When no pattern
matches the Python function falls through and returns None, modelled as
`none`. -/
def entity_type_and_object (B : Backend) (order : List EntityKind) (imdb_id : String) :
    Option (Except Err (EntityKind × Entity)) :=
  match order with
  | [] => none
  | k :: rest =>
      match searchKind k imdb_id with
      | some ds => some ((kindLookup B k ds).map (fun e => (k, e)))
      | none => entity_type_and_object B rest imdb_id

/-- Lines 158-159: `if 'actor' in job_types: job_types.append('actress')`.
The append executes once per call, before the (job_type, content_type) loop,
and mutates the list in place. -/
def expandJobs (job_types : List String) : List String :=
  if "actor" ∈ job_types then job_types ++ ["actress"] else job_types

/-- The final state of the configuration's job_types list after
`items_by_entity` returns: only the Person branch reaches line 159. -/
def job_types_after (kind : EntityKind) (job_types : List String) : List String :=
  match kind with
  | .Person => expandJobs job_types
  | _ => job_types

/-- Line 164: `entity_object.get(job_and_content, entity_object.get(job_type))`
followed by the `if movies_by_job_type:` guard — the combined label's list if
that key is present, otherwise the bare job label's list, otherwise nothing. -/
def labelLookup (e : Entity) (job content : String) : List Work :=
  match Entity.get e (job ++ " " ++ content) with
  | some l => l
  | none => (Entity.get e job).getD []

/-- Python `movie in movies` on IMDbPy work records: membership by backend
work identity. -/
def memW (m : Work) (ms : List Work) : Bool :=
  ms.any (fun w => w.id == m.id)

/-- Lines 166-172, one iteration of the innermost loop: hydrate the work
(`self.ia.update(movie)`, may raise), then
`if movie not in movies and movie['kind'] in content_types: movies.append(movie)`.
The `movie['kind']` access is evaluated only when the membership test fails
(Python short-circuit) and raises a lookup error when the field is absent. -/
def addMovie (B : Backend) (content_types : List String)
    (acc : Except Err (List Work)) (m0 : Work) : Except Err (List Work) :=
  match acc with
  | .error e => .error e
  | .ok ms =>
      match B.update m0 with
      | .error e => .error e
      | .ok m =>
          if memW m ms then .ok ms
          else
            match m.kind with
            | none => .error (.keyError "kind")
            | some k => if k ∈ content_types then .ok (ms ++ [m]) else .ok ms

/-- The candidate works visited by the nested loops of lines 160-166, in
visiting order: jobs outermost, content types inner, then the looked-up list. -/
def personCandidates (e : Entity) (content_types jobs : List String) : List Work :=
  jobs.flatMap (fun j => content_types.flatMap (fun c => labelLookup e j c))

/-- The combined labels "job_type content_type" constructed on line 162. -/
def personLabels (jobs content_types : List String) : List String :=
  jobs.flatMap (fun j => content_types.map (fun c => j ++ " " ++ c))

/-- Lines 157-173, the Person branch of `items_by_entity`. -/
def personItems (B : Backend) (e : Entity) (content_types job_types : List String) :
    Except Err (List Work) :=
  (personCandidates e content_types (expandJobs job_types)).foldl
    (addMovie B content_types) (.ok [])

/-- Lines 139-173, `items_by_entity`.  Company returns the stored list (or
None) verbatim; Character returns the concatenation of four fields; Person
runs the deduplicating loop. -/
def items_by_entity (B : Backend) (kind : EntityKind) (e : Entity)
    (content_types job_types : List String) : Except Err (Option (List Work)) :=
  match kind with
  | .Company => .ok (Entity.get e "production companies")
  | .Character =>
      .ok (some (Entity.getD e "feature" ++ Entity.getD e "tv"
        ++ Entity.getD e "video-game" ++ Entity.getD e "video"))
  | .Person => (personItems B e content_types job_types).map some

/-- A schema-level string-or-list configuration value. -/
inductive StrOrList where
  | str (s : String)
  | list (l : List String)
deriving DecidableEq, Repr

/-- The object form of the configuration, before `prepare_config`. -/
structure ConfigObj where
  id : String
  content_types : Option StrOrList
  job_types : Option StrOrList
  max_entries : Option Nat
deriving DecidableEq, Repr

/-- The configuration as handed to the plugin: a bare identifier string or an
object. -/
inductive RawConfig where
  | bare (id : String)
  | obj (c : ConfigObj)
deriving DecidableEq, Repr

/-- The prepared configuration after `prepare_config`. -/
structure Config where
  id : String
  content_types : List String
  job_types : List String
  max_entries : Nat
deriving DecidableEq, Repr

/-- Defaulting and string-to-list wrapping of one field of `prepare_config`. -/
def toListField : Option StrOrList → List String → List String
  | none, d => d
  | some (.str s), _ => [s]
  | some (.list l), _ => l

/-- Lines 175-194, `prepare_config`: wrap a bare string into {'id': ...},
set defaults content_types=['movie'], job_types=['actor'], max_entries=200,
and wrap lone strings into singleton lists. -/
def prepare_config : RawConfig → Config
  | .bare s => { id := s, content_types := ["movie"], job_types := ["actor"], max_entries := 200 }
  | .obj c =>
      { id := c.id
        content_types := toListField c.content_types ["movie"]
        job_types := toListField c.job_types ["actor"]
        max_entries := c.max_entries.getD 200 }

/-- The entry built on lines 224-226 from a surviving work whose title field
held `t`: canonical id is the backend's numeric work id behind the fixed
marker "tt", url always empty. -/
def mkEntry (B : Backend) (w : Work) (t : String) : Entry :=
  { title := t, imdb_id := "tt" ++ B.get_imdbID w, url := "" }

/-- Lines 223-229, one iteration of the assembly loop: `item['title']` raises
when the field is absent; otherwise the entry is appended unless an equal
entry (dict equality on all fields) is already present.  Every built entry
carries both a title and a url, so `entry.isvalid()` holds. -/
def assembleStep (B : Backend) (acc : Except Err (List Entry)) (item : Work) :
    Except Err (List Entry) :=
  match acc with
  | .error e => .error e
  | .ok entries =>
      match item.title with
      | none => .error (.keyError "title")
      | some t =>
          if mkEntry B item t ∈ entries then .ok entries
          else .ok (entries ++ [mkEntry B item t])

/-- Lines 223-235: fold the assembly loop over the surviving works. -/
def assembleEntries (B : Backend) (items : List Work) : Except Err (List Entry) :=
  items.foldl (assembleStep B) (.ok [])

/-- Lines 237-244: return the entries when their number is within
max_entries; otherwise log a warning and return nothing (no truncation). -/
def capEntries (entries : List Entry) (max_entries : Nat) : List Entry :=
  if entries.length ≤ max_entries then entries else []

/-- Lines 196-244, `on_task_input`.  The try/except of lines 208-212 covers
only identifier resolution: a non-matching identifier (unpacking None raises
TypeError) and a backend exception during resolution both produce an empty
run.  Enumeration and assembly run outside any handler, so their `.error`
escapes.  `if not items:` treats both None and the empty list as empty. -/
def on_task_input (B : Backend) (order : List EntityKind) (rc : RawConfig) :
    Except Err (List Entry) :=
  if B.imdbpyAvailable = false then .ok []
  else
    match entity_type_and_object B order (prepare_config rc).id with
    | none => .ok []
    | some (.error _) => .ok []
    | some (.ok (kind, ent)) =>
        match items_by_entity B kind ent (prepare_config rc).content_types
            (prepare_config rc).job_types with
        | .error e => .error e
        | .ok items =>
            if (items.getD []).isEmpty then .ok []
            else
              match assembleEntries B (items.getD []) with
              | .error e => .error e
              | .ok entries => .ok (capEntries entries (prepare_config rc).max_entries)

/-- Modelled from the spec: the Filter Engine's rating rule.  The filter
engine (spec section 4.3) is documented in the plugin docstring (lines 52-53
and 65-67 of the source: rating threshold, strict_mode policy for missing
fields) but no implementation of it is present under src/ — `on_task_input`
applies no rating filter.  Per the spec: passes when work.rating ≥
min_rating; a missing rating passes exactly when strict_mode is false. -/
def rating_passes (work_rating : Option ℚ) (min_rating : ℚ) (strict_mode : Bool) : Bool :=
  match work_rating with
  | some r => decide (min_rating ≤ r)
  | none => !strict_mode

/-! Helper lemmas about the enumeration fold (lines 160-173). -/

theorem foldl_addMovie_error (B : Backend) (cts : List String) (e : Err) :
    ∀ l : List Work, List.foldl (addMovie B cts) (.error e) l = .error e := by
  intro l
  induction l with
  | nil => rfl
  | cons a l ih => rw [List.foldl_cons]; exact ih

theorem addMovie_ok_cases (B : Backend) (cts : List String) (ms0 : List Work)
    (m0 : Work) (ms1 : List Work) (h : addMovie B cts (.ok ms0) m0 = .ok ms1) :
    ∃ m, B.update m0 = .ok m ∧
      ((memW m ms0 = true ∧ ms1 = ms0) ∨
       (memW m ms0 = false ∧ ∃ k, m.kind = some k ∧
         ((k ∈ cts ∧ ms1 = ms0 ++ [m]) ∨ (k ∉ cts ∧ ms1 = ms0)))) := by
  cases hu : B.update m0 with
  | error e => simp [addMovie, hu] at h
  | ok m =>
      refine ⟨m, rfl, ?_⟩
      cases hmem : memW m ms0 with
      | true =>
          simp [addMovie, hu, hmem] at h
          exact Or.inl ⟨rfl, h.symm⟩
      | false =>
          cases hk : m.kind with
          | none => simp [addMovie, hu, hmem, hk] at h
          | some k =>
              by_cases hkc : k ∈ cts
              · simp [addMovie, hu, hmem, hk, hkc] at h
                exact Or.inr ⟨rfl, k, rfl, Or.inl ⟨hkc, h.symm⟩⟩
              · simp [addMovie, hu, hmem, hk, hkc] at h
                exact Or.inr ⟨rfl, k, rfl, Or.inr ⟨hkc, h.symm⟩⟩

theorem foldl_addMovie_step (B : Backend) (cts : List String) (a : Work)
    (l : List Work) (ms0 ms : List Work)
    (h : List.foldl (addMovie B cts) (.ok ms0) (a :: l) = .ok ms) :
    ∃ ms1, addMovie B cts (.ok ms0) a = .ok ms1 ∧
      List.foldl (addMovie B cts) (.ok ms1) l = .ok ms := by
  rw [List.foldl_cons] at h
  cases hstep : addMovie B cts (.ok ms0) a with
  | error e => rw [hstep, foldl_addMovie_error] at h; cases h
  | ok ms1 => exact ⟨ms1, rfl, by rwa [hstep] at h⟩

theorem foldl_addMovie_mono (B : Backend) (cts : List String) :
    ∀ (l : List Work) (ms0 ms : List Work),
      List.foldl (addMovie B cts) (.ok ms0) l = .ok ms → ∀ m ∈ ms0, m ∈ ms := by
  intro l
  induction l with
  | nil =>
      intro ms0 ms h m hm
      simp only [List.foldl_nil, Except.ok.injEq] at h
      exact h ▸ hm
  | cons a l ih =>
      intro ms0 ms h m hm
      obtain ⟨ms1, hstep, hrest⟩ := foldl_addMovie_step B cts a l ms0 ms h
      obtain ⟨m', _, hcases⟩ := addMovie_ok_cases B cts ms0 a ms1 hstep
      have hmem1 : m ∈ ms1 := by
        rcases hcases with ⟨_, rfl⟩ | ⟨_, _, _, ⟨_, rfl⟩ | ⟨_, rfl⟩⟩
        · exact hm
        · exact List.mem_append_left _ hm
        · exact hm
      exact ih ms1 ms hrest m hmem1

theorem memW_eq_true_iff (m : Work) (ms : List Work) :
    memW m ms = true ↔ ∃ w ∈ ms, w.id = m.id := by
  simp [memW, List.any_eq_true]

theorem foldl_addMovie_sound (B : Backend) (cts : List String) :
    ∀ (l : List Work) (ms0 ms : List Work),
      List.foldl (addMovie B cts) (.ok ms0) l = .ok ms → ∀ m ∈ ms,
        m ∈ ms0 ∨ ∃ m0 ∈ l, B.update m0 = .ok m ∧ ∃ k, m.kind = some k ∧ k ∈ cts := by
  intro l
  induction l with
  | nil =>
      intro ms0 ms h m hm
      simp only [List.foldl_nil, Except.ok.injEq] at h
      exact Or.inl (h ▸ hm)
  | cons a l ih =>
      intro ms0 ms h m hm
      obtain ⟨ms1, hstep, hrest⟩ := foldl_addMovie_step B cts a l ms0 ms h
      rcases ih ms1 ms hrest m hm with hmem1 | ⟨m0, hm0, hu, hk⟩
      · obtain ⟨m', hu', hcases⟩ := addMovie_ok_cases B cts ms0 a ms1 hstep
        rcases hcases with ⟨_, rfl⟩ | ⟨_, k, hk', ⟨hkc, rfl⟩ | ⟨_, rfl⟩⟩
        · exact Or.inl hmem1
        · rcases List.mem_append.mp hmem1 with hin | hin
          · exact Or.inl hin
          · have : m = m' := by simpa using hin
            exact Or.inr ⟨a, List.mem_cons_self a l, this ▸ hu', k, this ▸ hk', hkc⟩
        · exact Or.inl hmem1
      · exact Or.inr ⟨m0, List.mem_cons_of_mem a hm0, hu, hk⟩

theorem foldl_addMovie_pairwise (B : Backend) (cts : List String) :
    ∀ (l : List Work) (ms0 ms : List Work),
      List.foldl (addMovie B cts) (.ok ms0) l = .ok ms →
      ms0.Pairwise (fun x y => x.id ≠ y.id) →
      ms.Pairwise (fun x y => x.id ≠ y.id) := by
  intro l
  induction l with
  | nil =>
      intro ms0 ms h h0
      simp only [List.foldl_nil, Except.ok.injEq] at h
      exact h ▸ h0
  | cons a l ih =>
      intro ms0 ms h h0
      obtain ⟨ms1, hstep, hrest⟩ := foldl_addMovie_step B cts a l ms0 ms h
      obtain ⟨m', _, hcases⟩ := addMovie_ok_cases B cts ms0 a ms1 hstep
      have h1 : ms1.Pairwise (fun x y => x.id ≠ y.id) := by
        rcases hcases with ⟨_, rfl⟩ | ⟨hmem, _, _, ⟨_, rfl⟩ | ⟨_, rfl⟩⟩
        · exact h0
        · rw [List.pairwise_append]
          refine ⟨h0, List.pairwise_singleton _ _, ?_⟩
          intro x hx y hy
          have hy' : y = m' := by simpa using hy
          intro hxy
          have : memW m' ms0 = true :=
            (memW_eq_true_iff m' ms0).mpr ⟨x, hx, hy' ▸ hxy⟩
          rw [this] at hmem
          cases hmem
        · exact h0
      exact ih ms1 ms hrest h1

theorem foldl_addMovie_complete (B : Backend) (cts : List String) :
    ∀ (l : List Work) (ms0 ms : List Work),
      List.foldl (addMovie B cts) (.ok ms0) l = .ok ms →
      ∀ m0 ∈ l, ∀ m k, B.update m0 = .ok m → m.kind = some k → k ∈ cts →
        ∃ w ∈ ms, w.id = m.id := by
  intro l
  induction l with
  | nil => intro ms0 ms _ m0 hm0; cases hm0
  | cons a l ih =>
      intro ms0 ms h m0 hm0 m k hu hk hkc
      obtain ⟨ms1, hstep, hrest⟩ := foldl_addMovie_step B cts a l ms0 ms h
      rcases List.mem_cons.mp hm0 with rfl | hm0'
      · obtain ⟨m', hu', hcases⟩ := addMovie_ok_cases B cts ms0 m0 ms1 hstep
        have hmm : m' = m := by rw [hu] at hu'; exact ((Except.ok.injEq _ _).mp hu').symm
        subst hmm
        rcases hcases with ⟨hmem, hms1⟩ | ⟨hmem, k', hk', hsub⟩
        · rw [hms1] at hrest
          obtain ⟨w, hw, hwid⟩ := (memW_eq_true_iff m' ms0).mp hmem
          exact ⟨w, foldl_addMovie_mono B cts l ms0 ms hrest w hw, hwid⟩
        · have hkk : k = k' := by rw [hk] at hk'; exact (Option.some.injEq _ _).mp hk'
          subst hkk
          rcases hsub with ⟨hkc', hms1⟩ | ⟨hnkc, _⟩
          · rw [hms1] at hrest
            exact ⟨m', foldl_addMovie_mono B cts l _ ms hrest m'
              (List.mem_append_right _ (List.mem_singleton.mpr rfl)), rfl⟩
          · exact absurd hkc hnkc
      · exact ih ms1 ms hrest m0 hm0' m k hu hk hkc

theorem mem_personCandidates (e : Entity) (cts jobs : List String) (m0 : Work) :
    m0 ∈ personCandidates e cts jobs ↔
      ∃ j ∈ jobs, ∃ c ∈ cts, m0 ∈ labelLookup e j c := by
  simp [personCandidates, List.mem_flatMap]

/-! Helper lemmas about the assembly fold (lines 223-229). -/

theorem foldl_assembleStep_error (B : Backend) (e : Err) :
    ∀ l : List Work, List.foldl (assembleStep B) (.error e) l = .error e := by
  intro l
  induction l with
  | nil => rfl
  | cons a l ih => rw [List.foldl_cons]; exact ih

theorem assembleStep_ok_cases (B : Backend) (es0 : List Entry) (w : Work)
    (es1 : List Entry) (h : assembleStep B (.ok es0) w = .ok es1) :
    ∃ t, w.title = some t ∧
      ((mkEntry B w t ∈ es0 ∧ es1 = es0) ∨
       (mkEntry B w t ∉ es0 ∧ es1 = es0 ++ [mkEntry B w t])) := by
  cases ht : w.title with
  | none => simp [assembleStep, ht] at h
  | some t =>
      refine ⟨t, rfl, ?_⟩
      by_cases hmem : mkEntry B w t ∈ es0
      · simp [assembleStep, ht, hmem] at h
        exact Or.inl ⟨hmem, h.symm⟩
      · simp [assembleStep, ht, hmem] at h
        exact Or.inr ⟨hmem, h.symm⟩

theorem foldl_assembleStep_step (B : Backend) (a : Work) (l : List Work)
    (es0 es : List Entry)
    (h : List.foldl (assembleStep B) (.ok es0) (a :: l) = .ok es) :
    ∃ es1, assembleStep B (.ok es0) a = .ok es1 ∧
      List.foldl (assembleStep B) (.ok es1) l = .ok es := by
  rw [List.foldl_cons] at h
  cases hstep : assembleStep B (.ok es0) a with
  | error e => rw [hstep, foldl_assembleStep_error] at h; cases h
  | ok es1 => exact ⟨es1, rfl, by rwa [hstep] at h⟩

theorem foldl_assembleStep_nodup (B : Backend) :
    ∀ (l : List Work) (es0 es : List Entry),
      List.foldl (assembleStep B) (.ok es0) l = .ok es →
      es0.Pairwise (fun a b => a ≠ b) → es.Pairwise (fun a b => a ≠ b) := by
  intro l
  induction l with
  | nil =>
      intro es0 es h h0
      simp only [List.foldl_nil, Except.ok.injEq] at h
      exact h ▸ h0
  | cons a l ih =>
      intro es0 es h h0
      obtain ⟨es1, hstep, hrest⟩ := foldl_assembleStep_step B a l es0 es h
      obtain ⟨t, _, hcases⟩ := assembleStep_ok_cases B es0 a es1 hstep
      have h1 : es1.Pairwise (fun a b => a ≠ b) := by
        rcases hcases with ⟨_, rfl⟩ | ⟨hnew, rfl⟩
        · exact h0
        · rw [List.pairwise_append]
          refine ⟨h0, List.pairwise_singleton _ _, ?_⟩
          intro x hx y hy
          have hy' : y = mkEntry B a t := by simpa using hy
          intro hxy
          exact hnew (hy' ▸ hxy ▸ hx)
      exact ih es1 es hrest h1

theorem foldl_assembleStep_origin (B : Backend) :
    ∀ (l : List Work) (es0 es : List Entry),
      List.foldl (assembleStep B) (.ok es0) l = .ok es →
      ∀ en ∈ es, en ∈ es0 ∨ ∃ w ∈ l, ∃ t, w.title = some t ∧ en = mkEntry B w t := by
  intro l
  induction l with
  | nil =>
      intro es0 es h en hen
      simp only [List.foldl_nil, Except.ok.injEq] at h
      exact Or.inl (h ▸ hen)
  | cons a l ih =>
      intro es0 es h en hen
      obtain ⟨es1, hstep, hrest⟩ := foldl_assembleStep_step B a l es0 es h
      rcases ih es1 es hrest en hen with hmem1 | ⟨w, hw, t, ht, hent⟩
      · obtain ⟨t, ht, hcases⟩ := assembleStep_ok_cases B es0 a es1 hstep
        rcases hcases with ⟨_, rfl⟩ | ⟨_, rfl⟩
        · exact Or.inl hmem1
        · rcases List.mem_append.mp hmem1 with hin | hin
          · exact Or.inl hin
          · exact Or.inr ⟨a, List.mem_cons_self a l, t, ht, by simpa using hin⟩
      · exact Or.inr ⟨w, List.mem_cons_of_mem a hw, t, ht, hent⟩

theorem string_append_cancel (s a b : String) (h : s ++ a = s ++ b) : a = b := by
  have h2 := congrArg String.data h
  rw [String.data_append, String.data_append] at h2
  exact String.ext (List.append_cancel_left h2)

/-! Helper lemmas about the resolver loop (lines 126-137). -/

theorem resolver_first_match (B : Backend) (s : String) (k : EntityKind) :
    ∀ order : List EntityKind, k ∈ order →
      (∀ k', k' ≠ k → searchKind k' s = none) →
      ∀ ds, searchKind k s = some ds →
        entity_type_and_object B order s =
          some ((kindLookup B k ds).map (fun e => (k, e))) := by
  intro order
  induction order with
  | nil => intro hk; cases hk
  | cons k0 rest ih =>
      intro hk hothers ds hds
      by_cases hk0 : k0 = k
      · subst hk0
        simp [entity_type_and_object, hds]
      · have hnone : searchKind k0 s = none := hothers k0 hk0
        have hk' : k ∈ rest := by
          rcases List.mem_cons.mp hk with h | h
          · exact absurd h.symm hk0
          · exact h
        simp only [entity_type_and_object, hnone]
        exact ih hk' hothers ds hds

theorem resolver_no_match (B : Backend) (s : String) :
    ∀ order : List EntityKind, (∀ k', searchKind k' s = none) →
      entity_type_and_object B order s = none := by
  intro order
  induction order with
  | nil => intro _; rfl
  | cons k0 rest ih =>
      intro h
      simp only [entity_type_and_object, h k0]
      exact ih h

/-! Concrete fixtures used by the witness theorems. -/

/-- A hydrated movie work with backend id 1. -/
def wit1 : Work := ⟨1, some "movie", some "T1"⟩

/-- A hydrated movie work with backend id 2. -/
def wit2 : Work := ⟨2, some "movie", some "T2"⟩

/-- A hydrated movie work with backend id 3. -/
def wit3 : Work := ⟨3, some "movie", some "T3"⟩

/-- A person entity filing work 1 under both the actor and the actress label. -/
def witPersonEntity : Entity :=
  [("actor movie", [wit1, wit2]), ("actress movie", [wit1])]

/-- A character entity with three works spread over two fields. -/
def witCharEntity : Entity := [("feature", [wit1, wit2]), ("tv", [wit3])]

/-- A deterministic backend for the witnesses: lookups succeed, hydration is
the identity, and the external work id is the decimal form of `id`. -/
def witBackend : Backend :=
  { imdbpyAvailable := true
    get_person := fun _ => .ok witPersonEntity
    get_company := fun _ => .ok []
    get_character := fun _ => .ok witCharEntity
    update := fun w => .ok w
    get_imdbID := fun w => toString w.id }

/-- A backend whose hydration call raises. -/
def boomBackend : Backend :=
  { witBackend with update := fun _ => .error (.backend "boom") }

/-- One possible iteration order of the ENTITIES_FORMATS dictionary. -/
def allKindsOrder : List EntityKind := [.Person, .Company, .Character]

/-! Claim theorems. -/

/-- C1: for the rating rule with min_rating 5, a work with a missing rating
passes when strict_mode is false and fails when strict_mode is true; a work
carrying a rating passes exactly when its rating is at least min_rating. -/
theorem c1_rating_rule :
    rating_passes none 5 false = true ∧
    rating_passes none 5 true = false ∧
    ∀ (r m : ℚ) (s : Bool), rating_passes (some r) m s = decide (m ≤ r) :=
  ⟨rfl, rfl, fun _ _ _ => rfl⟩

/-- C3 counterexample: Person work enumeration appends "actress" to the
configuration's own job_types list, so the prepared configuration is not
immutable, and a second invocation over the same configuration object sees
(and re-extends) the mutated list. -/
theorem c3_counterexample :
    job_types_after .Person ["actor"] ≠ ["actor"] ∧
    job_types_after .Person (job_types_after .Person ["actor"]) =
      ["actor", "actress", "actress"] := by
  decide

/-- C3 (amended): the prepared configuration is left unchanged by every stage
except Person work enumeration, which, exactly when "actor" is among the job
types, appends "actress" to the configuration's job_types list in place. -/
theorem c3_config_mutation (kind : EntityKind) (jts : List String) :
    (kind ≠ .Person → job_types_after kind jts = jts) ∧
    ("actor" ∉ jts → job_types_after kind jts = jts) ∧
    ("actor" ∈ jts → job_types_after .Person jts = jts ++ ["actress"]) := by
  refine ⟨?_, ?_, ?_⟩
  · intro h
    cases kind with
    | Person => exact absurd rfl h
    | Company => rfl
    | Character => rfl
  · intro h
    cases kind <;> simp [job_types_after, expandJobs, h]
  · intro h
    simp [job_types_after, expandJobs, h]

/-- C3 witness: concrete instances of the amended statement. -/
theorem c3_config_mutation_witness :
    job_types_after .Company ["actor"] = ["actor"] ∧
    job_types_after .Person ["director"] = ["director"] ∧
    job_types_after .Person ["actor"] = ["actor"] ++ ["actress"] :=
  ⟨(c3_config_mutation .Company ["actor"]).1 (by decide),
   (c3_config_mutation .Person ["director"]).2.1 (by decide),
   (c3_config_mutation .Person ["actor"]).2.2 (by decide)⟩

/-- C4: when "actor" is among the requested job types, the expansion adds
"actress" to the iterated job list exactly once per invocation — the expanded
list carries exactly one more "actress" than before, independently of the
content-type list — and every "actress content_type" combined label is then
among the labels the pair loop constructs. -/
theorem c4_actress_expansion (jts cts : List String) (h : "actor" ∈ jts) :
    expandJobs jts = jts ++ ["actress"] ∧
    (expandJobs jts).count "actress" = jts.count "actress" + 1 ∧
    ∀ c ∈ cts, ("actress" ++ " " ++ c) ∈ personLabels (expandJobs jts) cts := by
  have he : expandJobs jts = jts ++ ["actress"] := by simp [expandJobs, h]
  refine ⟨he, ?_, ?_⟩
  · rw [he, List.count_append]
    simp
  · intro c hc
    rw [he]
    refine List.mem_flatMap.mpr ⟨"actress", ?_, ?_⟩
    · exact List.mem_append_right _ (by simp)
    · exact List.mem_map.mpr ⟨c, hc, rfl⟩

/-- C4 witness: the expansion for job_types=["actor"], content_types=["movie"]. -/
theorem c4_actress_expansion_witness :
    expandJobs ["actor"] = ["actor"] ++ ["actress"] ∧
    (expandJobs ["actor"]).count "actress" =
      (["actor"] : List String).count "actress" + 1 ∧
    ∀ c ∈ (["movie"] : List String),
      ("actress" ++ " " ++ c) ∈ personLabels (expandJobs ["actor"]) ["movie"] :=
  c4_actress_expansion ["actor"] ["movie"] (by decide)

/-- C8: an identifier matched by exactly one kind's pattern is classified as
that kind and the backend lookup for that kind is issued (whatever the
format dictionary's iteration order); an identifier matching no pattern makes
resolution fail, which `on_task_input` surfaces as an empty run. -/
theorem c8_resolution (B : Backend) (order : List EntityKind) (s : String)
    (k : EntityKind) :
    (k ∈ order → (searchKind k s).isSome = true →
      (∀ k', k' ≠ k → searchKind k' s = none) →
      ∃ ds, searchKind k s = some ds ∧
        entity_type_and_object B order s =
          some ((kindLookup B k ds).map (fun e => (k, e)))) ∧
    ((∀ k', searchKind k' s = none) → entity_type_and_object B order s = none) ∧
    (∀ rc : RawConfig,
      entity_type_and_object B order (prepare_config rc).id = none →
      on_task_input B order rc = .ok []) := by
  refine ⟨?_, ?_, ?_⟩
  · intro hk hsome hothers
    obtain ⟨ds, hds⟩ := Option.isSome_iff_exists.mp hsome
    exact ⟨ds, hds, resolver_first_match B s k order hk hothers ds hds⟩
  · intro h
    exact resolver_no_match B s order h
  · intro rc hres
    cases hav : B.imdbpyAvailable <;> simp [on_task_input, hav, hres]

/-- C8 witness: "nm1234567" matches only the Person pattern and resolution
issues the person lookup; the resolver link to the empty run is instantiated
on an identifier matching no pattern. -/
theorem c8_resolution_witness :
    (∃ ds, searchKind .Person "nm1234567" = some ds ∧
      entity_type_and_object witBackend allKindsOrder "nm1234567" =
        some ((kindLookup witBackend .Person ds).map (fun e => (.Person, e)))) ∧
    on_task_input witBackend allKindsOrder (.bare "zzz") = .ok [] :=
  ⟨(c8_resolution witBackend allKindsOrder "nm1234567" .Person).1
      (by decide) (by decide) (by decide),
   (c8_resolution witBackend allKindsOrder "zzz" .Person).2.2 (.bare "zzz")
      (by decide)⟩

/-- C2: whenever the deduplicated entry count strictly exceeds max_entries,
`on_task_input` returns no entries at all (the warning branch of lines
240-244 returns None) — never a truncated list. -/
theorem c2_result_cap (B : Backend) (order : List EntityKind) (rc : RawConfig)
    (kind : EntityKind) (ent : Entity) (items : Option (List Work))
    (entries : List Entry)
    (hav : B.imdbpyAvailable = true)
    (hres : entity_type_and_object B order (prepare_config rc).id =
      some (.ok (kind, ent)))
    (hitems : items_by_entity B kind ent (prepare_config rc).content_types
      (prepare_config rc).job_types = .ok items)
    (hne : (items.getD []).isEmpty = false)
    (hasm : assembleEntries B (items.getD []) = .ok entries)
    (hover : (prepare_config rc).max_entries < entries.length) :
    on_task_input B order rc = .ok [] := by
  simp [on_task_input, hav, hres, hitems, hne, hasm, capEntries,
    Nat.not_le.mpr hover]

/-- C2 witness: a character with three works and max_entries configured to 2
produces an empty run, not a two-entry truncation. -/
theorem c2_result_cap_witness :
    on_task_input witBackend allKindsOrder (.obj ⟨"ch0000001", none, none, some 2⟩) =
      .ok [] :=
  c2_result_cap witBackend allKindsOrder (.obj ⟨"ch0000001", none, none, some 2⟩)
    .Character witCharEntity (some [wit1, wit2, wit3])
    [⟨"T1", "tt1", ""⟩, ⟨"T2", "tt2", ""⟩, ⟨"T3", "tt3", ""⟩]
    (by decide) (by decide) (by decide) (by decide) (by decide) (by decide)

/-- A work appearing under two fields of the same character entity. -/
def dupWork : Work := ⟨7, some "movie", some "D"⟩

/-- A character entity whose feature and tv fields overlap. -/
def dupCharEntity : Entity := [("feature", [dupWork]), ("tv", [dupWork])]

/-- C5 counterexample: for a Character entity whose feature and tv lookups
overlap, the enumerator returns the overlapping work twice — the
concatenation of lines 154-155 performs no dedup. -/
theorem c5_counterexample :
    items_by_entity witBackend .Character dupCharEntity ["movie"] ["actor"] =
      .ok (some [dupWork, dupWork]) ∧
    ([dupWork, dupWork].count dupWork = 2) := by
  decide

/-- C5 (amended): only the Person enumerator deduplicates — its result never
carries two works with the same backend identity — while the Character
enumerator returns the plain concatenation of its four field lookups, so
overlapping lookups yield duplicates there. -/
theorem c5_person_dedup (B : Backend) (e : Entity) (cts jts : List String)
    (ms : List Work) (h : personItems B e cts jts = .ok ms) :
    ms.Pairwise (fun a b => a.id ≠ b.id) ∧
    ∀ e' : Entity, items_by_entity B .Character e' cts jts =
      .ok (some (Entity.getD e' "feature" ++ Entity.getD e' "tv"
        ++ Entity.getD e' "video-game" ++ Entity.getD e' "video")) := by
  have h' : List.foldl (addMovie B cts) (.ok [])
      (personCandidates e cts (expandJobs jts)) = .ok ms := h
  exact ⟨foldl_addMovie_pairwise B cts _ [] ms h' List.Pairwise.nil,
    fun _ => rfl⟩

/-- C5 witness: a person whose actor and actress labels overlap on work 1
still yields each work once. -/
theorem c5_person_dedup_witness :
    ([wit1, wit2] : List Work).Pairwise (fun a b => a.id ≠ b.id) ∧
    ∀ e' : Entity, items_by_entity witBackend .Character e' ["movie"] ["actor"] =
      .ok (some (Entity.getD e' "feature" ++ Entity.getD e' "tv"
        ++ Entity.getD e' "video-game" ++ Entity.getD e' "video")) :=
  c5_person_dedup witBackend witPersonEntity ["movie"] ["actor"] [wit1, wit2]
    (by decide)

/-- Two distinct work records sharing backend id 4. -/
def dupTitleA : Work := ⟨4, some "movie", some "A"⟩

/-- A second work record with backend id 4 but another title. -/
def dupTitleB : Work := ⟨4, some "movie", some "B"⟩

/-- C6 counterexample: the assembly loop deduplicates by whole-entry
equality (title, imdb_id, url), not by canonical_id: two surviving works
with the same backend id but different titles produce two output records
sharing the canonical_id "tt4". -/
theorem c6_counterexample :
    assembleEntries witBackend [dupTitleA, dupTitleB] =
      .ok [⟨"A", "tt4", ""⟩, ⟨"B", "tt4", ""⟩] ∧
    (⟨"A", "tt4", ""⟩ : Entry).imdb_id = (⟨"B", "tt4", ""⟩ : Entry).imdb_id ∧
    (⟨"A", "tt4", ""⟩ : Entry) ≠ (⟨"B", "tt4", ""⟩ : Entry) := by
  decide

/-- C6 (amended): the assembler drops a record only when an identical record
(same title, canonical_id and url) was already emitted, keeping the first
occurrence — so no two output records are equal; no two output records share
a canonical_id under the additional assumption that surviving works with the
same external id carry the same title. -/
theorem c6_assemble_dedup (B : Backend) (items : List Work) (entries : List Entry)
    (h : assembleEntries B items = .ok entries) :
    entries.Pairwise (fun a b => a ≠ b) ∧
    ((∀ w1 ∈ items, ∀ w2 ∈ items,
        B.get_imdbID w1 = B.get_imdbID w2 → w1.title = w2.title) →
      entries.Pairwise (fun a b => a.imdb_id ≠ b.imdb_id)) := by
  have h' : List.foldl (assembleStep B) (.ok []) items = .ok entries := h
  have hnd : entries.Pairwise (fun a b => a ≠ b) :=
    foldl_assembleStep_nodup B items [] entries h' List.Pairwise.nil
  refine ⟨hnd, ?_⟩
  intro htitle
  refine List.Pairwise.imp_of_mem ?_ hnd
  intro a b ha hb hab
  intro hid
  rcases foldl_assembleStep_origin B items [] entries h' a ha with hfalse | ⟨w1, hw1, t1, ht1, hent1⟩
  · cases hfalse
  rcases foldl_assembleStep_origin B items [] entries h' b hb with hfalse | ⟨w2, hw2, t2, ht2, hent2⟩
  · cases hfalse
  apply hab
  rw [hent1, hent2] at hid
  have hg : B.get_imdbID w1 = B.get_imdbID w2 := string_append_cancel "tt" _ _ hid
  have ht : w1.title = w2.title := htitle w1 hw1 w2 hw2 hg
  have ht12 : t1 = t2 := by
    rw [ht1, ht2] at ht
    exact (Option.some.injEq _ _).mp ht
  rw [hent1, hent2]
  simp [mkEntry, ht12, hg]

/-- C6 witness: assembling two distinct-id works yields pairwise-distinct
entries and, titles being consistent per id, pairwise-distinct canonical ids. -/
theorem c6_assemble_dedup_witness :
    ([⟨"T1", "tt1", ""⟩, ⟨"T3", "tt3", ""⟩] : List Entry).Pairwise (fun a b => a ≠ b) ∧
    ((∀ w1 ∈ [wit1, wit3], ∀ w2 ∈ [wit1, wit3],
        witBackend.get_imdbID w1 = witBackend.get_imdbID w2 → w1.title = w2.title) →
      ([⟨"T1", "tt1", ""⟩, ⟨"T3", "tt3", ""⟩] : List Entry).Pairwise
        (fun a b => a.imdb_id ≠ b.imdb_id)) :=
  c6_assemble_dedup witBackend [wit1, wit3] [⟨"T1", "tt1", ""⟩, ⟨"T3", "tt3", ""⟩]
    (by decide)

/-- C7: every work the Person enumerator retains came from some
(job_type, content_type) pair's label lookup — the combined label's list when
that key is present, else the bare job label's list — after hydration, and
carries a kind belonging to the requested content types; conversely, every
candidate of some pair that hydrates to a work of a requested kind is
represented in the result (by backend identity). -/
theorem c7_person_lookup (B : Backend) (e : Entity) (cts jts : List String)
    (ms : List Work) (h : personItems B e cts jts = .ok ms) :
    (∀ j c l, Entity.get e (j ++ " " ++ c) = some l → labelLookup e j c = l) ∧
    (∀ j c, Entity.get e (j ++ " " ++ c) = none →
      labelLookup e j c = (Entity.get e j).getD []) ∧
    (∀ m ∈ ms, ∃ j ∈ expandJobs jts, ∃ c ∈ cts, ∃ m0 ∈ labelLookup e j c,
      B.update m0 = .ok m ∧ ∃ k, m.kind = some k ∧ k ∈ cts) ∧
    (∀ j ∈ expandJobs jts, ∀ c ∈ cts, ∀ m0 ∈ labelLookup e j c, ∀ m k,
      B.update m0 = .ok m → m.kind = some k → k ∈ cts →
      ∃ w ∈ ms, w.id = m.id) := by
  have h' : List.foldl (addMovie B cts) (.ok [])
      (personCandidates e cts (expandJobs jts)) = .ok ms := h
  refine ⟨?_, ?_, ?_, ?_⟩
  · intro j c l hl
    simp [labelLookup, hl]
  · intro j c hl
    simp [labelLookup, hl]
  · intro m hm
    rcases foldl_addMovie_sound B cts _ [] ms h' m hm with hfalse | ⟨m0, hm0, hu, hk⟩
    · cases hfalse
    · obtain ⟨j, hj, c, hc, hm0'⟩ :=
        (mem_personCandidates e cts (expandJobs jts) m0).mp hm0
      exact ⟨j, hj, c, hc, m0, hm0', hu, hk⟩
  · intro j hj c hc m0 hm0 m k hu hk hkc
    exact foldl_addMovie_complete B cts _ [] ms h' m0
      ((mem_personCandidates e cts (expandJobs jts) m0).mpr ⟨j, hj, c, hc, hm0⟩)
      m k hu hk hkc

/-- C7 witness: the lookup characterization instantiated on a concrete person
entity. -/
theorem c7_person_lookup_witness :
    (∀ j c l, Entity.get witPersonEntity (j ++ " " ++ c) = some l →
      labelLookup witPersonEntity j c = l) ∧
    (∀ j c, Entity.get witPersonEntity (j ++ " " ++ c) = none →
      labelLookup witPersonEntity j c = (Entity.get witPersonEntity j).getD []) ∧
    (∀ m ∈ [wit1, wit2], ∃ j ∈ expandJobs ["actor"], ∃ c ∈ (["movie"] : List String),
      ∃ m0 ∈ labelLookup witPersonEntity j c,
      witBackend.update m0 = .ok m ∧ ∃ k, m.kind = some k ∧ k ∈ (["movie"] : List String)) ∧
    (∀ j ∈ expandJobs ["actor"], ∀ c ∈ (["movie"] : List String),
      ∀ m0 ∈ labelLookup witPersonEntity j c, ∀ m k,
      witBackend.update m0 = .ok m → m.kind = some k → k ∈ (["movie"] : List String) →
      ∃ w ∈ [wit1, wit2], w.id = m.id) :=
  c7_person_lookup witBackend witPersonEntity ["movie"] ["actor"] [wit1, wit2]
    (by decide)

/-- C9 counterexample: a backend error raised during work hydration is not
caught — the try/except of lines 208-212 covers only identifier resolution —
so `on_task_input` surfaces the exception instead of an empty result. -/
theorem c9_counterexample :
    on_task_input boomBackend allKindsOrder (.bare "nm0000001") =
      .error (.backend "boom") := by
  decide

/-- C9 (amended): the expected conditions handled before enumeration — IMDbPY
unavailable, an identifier matching no pattern, a backend exception during
resolution, and an absent or empty work list — all yield an empty run; but
any exception `on_task_input` surfaces originates in work enumeration or
assembly, which run outside the try/except and therefore raise past the host
boundary. -/
theorem c9_error_boundary (B : Backend) (order : List EntityKind) (rc : RawConfig) :
    (B.imdbpyAvailable = false → on_task_input B order rc = .ok []) ∧
    (entity_type_and_object B order (prepare_config rc).id = none →
      on_task_input B order rc = .ok []) ∧
    (∀ e, entity_type_and_object B order (prepare_config rc).id = some (.error e) →
      on_task_input B order rc = .ok []) ∧
    (∀ kind ent items,
      entity_type_and_object B order (prepare_config rc).id = some (.ok (kind, ent)) →
      items_by_entity B kind ent (prepare_config rc).content_types
        (prepare_config rc).job_types = .ok items →
      (items.getD []).isEmpty = true → on_task_input B order rc = .ok []) ∧
    (∀ err, on_task_input B order rc = .error err →
      ∃ kind ent, entity_type_and_object B order (prepare_config rc).id =
          some (.ok (kind, ent)) ∧
        (items_by_entity B kind ent (prepare_config rc).content_types
            (prepare_config rc).job_types = .error err ∨
         ∃ items, items_by_entity B kind ent (prepare_config rc).content_types
            (prepare_config rc).job_types = .ok items ∧
           assembleEntries B (items.getD []) = .error err)) := by
  refine ⟨?_, ?_, ?_, ?_, ?_⟩
  · intro hav
    simp [on_task_input, hav]
  · intro hres
    cases hav : B.imdbpyAvailable <;> simp [on_task_input, hav, hres]
  · intro e hres
    cases hav : B.imdbpyAvailable <;> simp [on_task_input, hav, hres]
  · intro kind ent items hres hitems hempty
    cases hav : B.imdbpyAvailable <;>
      simp [on_task_input, hav, hres, hitems, hempty]
  · intro err herr
    cases hav : B.imdbpyAvailable with
    | false => simp [on_task_input, hav] at herr
    | true =>
        cases hres : entity_type_and_object B order (prepare_config rc).id with
        | none => simp [on_task_input, hav, hres] at herr
        | some r =>
            cases r with
            | error e => simp [on_task_input, hav, hres] at herr
            | ok p =>
                obtain ⟨kind, ent⟩ := p
                refine ⟨kind, ent, rfl, ?_⟩
                cases hitems : items_by_entity B kind ent
                    (prepare_config rc).content_types
                    (prepare_config rc).job_types with
                | error e2 =>
                    simp [on_task_input, hav, hres, hitems] at herr
                    exact Or.inl (by rw [herr])
                | ok items =>
                    cases hempty : (items.getD []).isEmpty with
                    | true => simp [on_task_input, hav, hres, hitems, hempty] at herr
                    | false =>
                        cases hasm : assembleEntries B (items.getD []) with
                        | error e3 =>
                            simp [on_task_input, hav, hres, hitems, hempty, hasm] at herr
                            exact Or.inr ⟨items, rfl, by rw [hasm, herr]⟩
                        | ok entries =>
                            simp [on_task_input, hav, hres, hitems, hempty, hasm] at herr

/-- C9 witness: the amended boundary behavior instantiated on an identifier
matching no pattern. -/
theorem c9_error_boundary_witness :
    on_task_input witBackend allKindsOrder (.bare "no id here") = .ok [] :=
  (c9_error_boundary witBackend allKindsOrder (.bare "no id here")).2.1 (by decide)

/-- C10: hydrated works are indexed unconditionally — a work reaching the
kind test without a kind field makes the enumeration loop raise a lookup
error for "kind" instead of skipping it, a work without a title makes the
assembly loop raise a lookup error for "title", each such error survives the
remainder of its loop, and an enumeration error surfaces uncaught from
`on_task_input`. -/
theorem c10_unconditional_access :
    (∀ (B : Backend) (cts : List String) (ms : List Work) (m0 m : Work),
      B.update m0 = .ok m → memW m ms = false → m.kind = none →
      addMovie B cts (.ok ms) m0 = .error (.keyError "kind")) ∧
    (∀ (B : Backend) (es : List Entry) (w : Work), w.title = none →
      assembleStep B (.ok es) w = .error (.keyError "title")) ∧
    (∀ (B : Backend) (cts : List String) (e : Err) (l : List Work),
      List.foldl (addMovie B cts) (.error e) l = .error e) ∧
    (∀ (B : Backend) (e : Err) (l : List Work),
      List.foldl (assembleStep B) (.error e) l = .error e) ∧
    (∀ (B : Backend) (order : List EntityKind) (rc : RawConfig)
        (kind : EntityKind) (ent : Entity) (err : Err),
      B.imdbpyAvailable = true →
      entity_type_and_object B order (prepare_config rc).id = some (.ok (kind, ent)) →
      items_by_entity B kind ent (prepare_config rc).content_types
        (prepare_config rc).job_types = .error err →
      on_task_input B order rc = .error err) := by
  refine ⟨?_, ?_, ?_, ?_, ?_⟩
  · intro B cts ms m0 m hu hmem hk
    simp [addMovie, hu, hmem, hk]
  · intro B es w ht
    simp [assembleStep, ht]
  · intro B cts e l
    exact foldl_addMovie_error B cts e l
  · intro B e l
    exact foldl_assembleStep_error B e l
  · intro B order rc kind ent err hav hres hitems
    simp [on_task_input, hav, hres, hitems]

/-- C10 witness: a kind-less work raising in the enumeration loop and a
title-less work raising in the assembly loop, at concrete inputs. -/
theorem c10_unconditional_access_witness :
    addMovie witBackend ["movie"] (.ok []) ⟨9, none, some "N"⟩ =
      .error (.keyError "kind") ∧
    assembleStep witBackend (.ok []) ⟨8, some "movie", none⟩ =
      .error (.keyError "title") :=
  ⟨c10_unconditional_access.1 witBackend ["movie"] [] ⟨9, none, some "N"⟩
      ⟨9, none, some "N"⟩ (by decide) (by decide) (by decide),
   c10_unconditional_access.2.1 witBackend [] ⟨8, some "movie", none⟩ (by decide)⟩

end DynamicIMDB
